import Mathlib

/-!
# Verification of `extract_google_alerts_mbox.py`

A shallow embedding of the Google-Alerts mbox extraction pipeline
(`src/extract_google_alerts_mbox.py`) together with proofs about its
claimed properties.  Strings are processed as `List Char`; external
library collaborators (the RFC-2822 date parser, the tolerant HTML
parser, the microdata extractor) are either modelled from the spec's
contract or taken as abstract parameters, as noted on each definition.
-/

namespace GoogleAlerts

/-! ## Character-list string utilities -/

/-- `isPrefixL pat s`: `pat` is a prefix of `s` (character-wise). -/
def isPrefixL : List Char → List Char → Bool
  | [], _ => true
  | _ :: _, [] => false
  | a :: asTail, b :: bs => a = b && isPrefixL asTail bs

/-- `containsSubL pat s` models Python's substring test `pat in s`. -/
def containsSubL (pat : List Char) : List Char → Bool
  | [] => isPrefixL pat []
  | c :: rest => isPrefixL pat (c :: rest) || containsSubL pat rest

/-- Substring containment on `String`s, via `containsSubL`. -/
def containsSub (pat s : String) : Bool := containsSubL pat.toList s.toList

/-- `splitOnChar c l` models Python's `str.split(c)`: split `l` at every
occurrence of the single character `c`.  Always returns a non-empty list. -/
def splitOnChar (c : Char) : List Char → List (List Char)
  | [] => [[]]
  | x :: xs =>
    let r := splitOnChar c xs
    if x = c then [] :: r
    else
      match r with
      | [] => [[x]]
      | h :: t => (x :: h) :: t

/-- `joinWith c ls` re-joins pieces with the single character `c`,
the inverse direction of `splitOnChar` (models `c.join(ls)` / the
"rest after the first split" recombination of `str.split(c, 1)`). -/
def joinWith (c : Char) : List (List Char) → List Char
  | [] => []
  | [l] => l
  | l :: ls => l ++ c :: joinWith c ls

/-! ## URL resolution (source lines 125–127)

`urllib.parse.urlparse(google_url)` followed by
`urllib.parse.parse_qs(parsed_url.query).get('url', [''])[0]`. -/

/-- Value of a hexadecimal digit, as used by percent-decoding. -/
def hexVal (c : Char) : Option Nat :=
  if '0' ≤ c ∧ c ≤ '9' then some (c.toNat - '0'.toNat)
  else if 'a' ≤ c ∧ c ≤ 'f' then some (c.toNat - 'a'.toNat + 10)
  else if 'A' ≤ c ∧ c ≤ 'F' then some (c.toNat - 'A'.toNat + 10)
  else none

/-- Percent-decoding as performed by `urllib.parse.unquote`: a `%`
followed by two hex digits becomes the character with that code; an
invalid escape is kept literally.  (Escapes are modelled per byte as
code points; every input relevant to the claims is ASCII.) -/
def unquoteL : List Char → List Char
  | '%' :: a :: b :: rest =>
    match hexVal a, hexVal b with
    | some x, some y => Char.ofNat (16 * x + y) :: unquoteL rest
    | _, _ => '%' :: unquoteL (a :: b :: rest)
  | c :: rest => c :: unquoteL rest
  | [] => []

/-- `parse_qsl` first replaces `+` by a space, then percent-decodes. -/
def unquotePlus (l : List Char) : List Char :=
  unquoteL (l.map fun c => if c = '+' then ' ' else c)

/-- One `name=value` field of a query string, as treated by
`urllib.parse.parse_qsl` with default options: a field without `=` or
with an empty value is dropped; name and value are both decoded; the
value is everything after the first `=`. -/
def parseFieldL (f : List Char) : Option (List Char × List Char) :=
  match splitOnChar '=' f with
  | [] => none
  | [_] => none
  | name :: rest =>
    let value := joinWith '=' rest
    if value = [] then none else some (unquotePlus name, unquotePlus value)

/-- `urllib.parse.parse_qsl` on a query string: split on `&`, keep the
fields that carry a value. -/
def parseQslL (qs : List Char) : List (List Char × List Char) :=
  (splitOnChar '&' qs).filterMap parseFieldL

/-- The query component of a URL, as extracted by
`urllib.parse.urlparse`: drop everything from the first `#` on, then
take everything after the first `?`. -/
def getQueryL (url : List Char) : List Char :=
  let noFrag := (splitOnChar '#' url).headD []
  match splitOnChar '?' noFrag with
  | [] => []
  | [_] => []
  | _ :: rest => joinWith '?' rest

/-- Source lines 125–127: the value of the first query-string parameter
named `url` (decoded), or the empty string when absent —
`parse_qs(parsed_url.query).get('url', [''])[0]`, where `parse_qs`
groups values per name in occurrence order. -/
def resolveUrlL (g : List Char) : List Char :=
  match (parseQslL (getQueryL g)).filter (fun p => p.1 = 'u' :: 'r' :: 'l' :: []) with
  | [] => []
  | p :: _ => p.2

/-- URL resolver on `String`s. -/
def resolveUrl (g : String) : String := String.mk (resolveUrlL g.toList)

/-- Sanity check: the resolver on a redirect URL with a percent-encoded
destination and an extra repeated parameter. -/
theorem eval_resolveUrl_repeated :
    resolveUrl "https://r/?url=first%2F&url=second" = "first/" := by decide

/-! ## Date formatting (source lines 76–80) -/

/-- Auxiliary for decimal rendering; the first argument is fuel
(`fuel ≥ n` suffices for the value `n`). -/
def natToCharsAux : Nat → Nat → List Char
  | 0, _ => []
  | fuel + 1, n =>
    if n = 0 then [] else natToCharsAux fuel (n / 10) ++ [Nat.digitChar (n % 10)]

/-- Decimal rendering of a natural number, modelling Python's `str(n)`
for the non-negative integers produced by the date parser. -/
def natToChars (n : Nat) : List Char :=
  if n = 0 then ['0'] else natToCharsAux (n + 1) n

/-- Python's `"{:0>2}".format(x)`: pad on the left with `'0'` up to
width 2. -/
def zfill2 (l : List Char) : List Char :=
  if l.length < 2 then List.replicate (2 - l.length) '0' ++ l else l

/-- The `(year, month, day)` components returned by RFC-2822-style date
parsing (`parsedate_tz`'s leading tuple entries). -/
structure DateTuple where
  year : Nat
  month : Nat
  day : Nat
deriving DecidableEq, Repr

/-- Source lines 78–80: `date_mdcy` is the zero-padded month, the
zero-padded day and the year, concatenated with no separator
(`date_tuple[1]`, `date_tuple[2]`, `date_tuple[0]`, each through
`"{:0>2}".format`). -/
def date_mdcyL (t : DateTuple) : List Char :=
  zfill2 (natToChars t.month) ++ zfill2 (natToChars t.day) ++ zfill2 (natToChars t.year)

/-- `date_mdcy` as a `String`. -/
def date_mdcy (t : DateTuple) : String := String.mk (date_mdcyL t)

/-- Sanity check: the format pads day 3 to `03`. -/
theorem eval_date_mdcy : date_mdcy ⟨2020, 3, 3⟩ = "03032020" := by decide

/-! ## Date-header parsing -/

/-- Month-name tokens recognised by RFC-2822 date parsing. -/
def monthNames : List (List Char) :=
  ["jan", "feb", "mar", "apr", "may", "jun",
   "jul", "aug", "sep", "oct", "nov", "dec"].map String.toList

/-- First index of `tok` in `names`, offset by `i`. -/
def monthIndexAux (tok : List Char) : List (List Char) → Nat → Option Nat
  | [], _ => none
  | n :: ns, i => if tok = n then some i else monthIndexAux tok ns (i + 1)

/-- 1-based month number of a (case-insensitive) month-name token. -/
def monthIndex (tok : List Char) : Option Nat :=
  (monthIndexAux (tok.map Char.toLower) monthNames 0).map (· + 1)

/-- A non-empty all-digit token read as a natural number. -/
def digitsToNat (l : List Char) : Option Nat :=
  if l ≠ [] ∧ l.all Char.isDigit then
    some (l.foldl (fun a c => 10 * a + (c.toNat - '0'.toNat)) 0)
  else none

/-- Modelled from the spec: the source calls the standard library's
`email.utils.parsedate_tz` (not part of this repository), which §4.2
describes as "RFC-2822-style date parsing that yields a (year, month,
day, …) tuple".  The model accepts a header of the shape
`[Weekday,] DD Mon YYYY HH:MM:SS ±ZZZZ`, with an optional weekday token
ending in a comma, a 1- or 2-digit day of month, a month name, and a
4-digit year, and yields its `(year, month, day)` components; anything
else fails (yields `none`), in particular the empty header used for an
absent `date` field. -/
def parsedate_spec (s : String) : Option DateTuple :=
  let toks₀ := (splitOnChar ' ' s.toList).filter (· ≠ [])
  let toks :=
    match toks₀ with
    | t :: rest => if t.getLast? = some ',' then rest else t :: rest
    | [] => []
  match toks with
  | d :: m :: y :: _ :: _ =>
    match digitsToNat d, monthIndex m, digitsToNat y with
    | some dn, some mn, some yn =>
      if 1 ≤ dn ∧ dn ≤ 31 ∧ 1 ≤ mn ∧ mn ≤ 12 ∧ 1000 ≤ yn ∧ yn ≤ 9999 then
        some ⟨yn, mn, dn⟩
      else none
    | _, _, _ => none
  | _ => none

/-- Sanity check: a well-formed RFC-2822 header parses. -/
theorem eval_parsedate_ok :
    parsedate_spec "Tue, 3 Mar 2020 10:11:12 +0000" = some ⟨2020, 3, 3⟩ := by decide

/-- Sanity check: garbage and the empty header are rejected. -/
theorem eval_parsedate_bad :
    parsedate_spec "nonsense" = none ∧ parsedate_spec "" = none := by
  constructor <;> decide

/-! ## The message model and the body-extraction phase
(source lines 40–101) -/

/-- One part of a multi-part message: its content type, its decoded
payload (the transfer- and charset-decoding performed by
`get_payload(decode=True).decode('utf-8')` is abstracted into the
stored string), and its subparts. -/
inductive MsgPart where
  | part : String → String → List MsgPart → MsgPart

/-- The content type of a part (`get_content_type()`). -/
def MsgPart.contentType : MsgPart → String
  | .part ct _ _ => ct

/-- The decoded payload of a part. -/
def MsgPart.payload : MsgPart → String
  | .part _ pl _ => pl

mutual

/-- `message.walk()`: the part itself, then its subparts depth-first
(multipart containers included). -/
def MsgPart.walk : MsgPart → List MsgPart
  | .part ct pl subs => .part ct pl subs :: walkList subs

/-- Depth-first walk of a list of sibling parts. -/
def walkList : List MsgPart → List MsgPart
  | [] => []
  | p :: ps => p.walk ++ walkList ps

end

/-- Sanity check: the walk yields the container itself first, then its
subparts depth-first. -/
theorem eval_walk :
    (MsgPart.part "multipart/alternative" ""
      [.part "text/plain" "p" [], .part "text/html" "h" []]).walk =
    [.part "multipart/alternative" ""
       [.part "text/plain" "p" [], .part "text/html" "h" []],
     .part "text/plain" "p" [], .part "text/html" "h" []] := rfl

/-- One message of the archive: its structural defect markers
(`message.defects`), its raw `date` header (the empty string standing
for an absent header, which the date parser rejects), its
`message-ID` header, and its part tree. -/
structure ArchiveMessage where
  defects : List String
  dateHeader : String
  messageId : String
  body : MsgPart

/-- One element of `messages_parsed` (source line 91): the formatted
date, the message id, and the decoded HTML content. -/
structure ParsedEntry where
  date : String
  messageId : String
  html : String
deriving DecidableEq, Repr

/-- The mutable state of the body-extraction loop: `messages_parsed`,
`messages_total`, `messages_defective` (source lines 41–43). -/
structure ExtractState where
  messagesParsed : List ParsedEntry
  messagesTotal : Nat
  messagesDefective : Nat
deriving DecidableEq, Repr

/-- The initial counters (source lines 41–43). -/
def initState : ExtractState := ⟨[], 0, 0⟩

/-- The body of the `for step in message.walk()` loop (source lines
67–91), for one `step`: if the content type contains `"html"`, parse
the `date` header — on success append a parsed entry, on failure
increment the defective counter (the `continue` on line 84 continues
this inner loop); any other step leaves the state unchanged.  The date
parser `pd` abstracts `email.utils.parsedate_tz`. -/
def stepHtml (pd : String → Option DateTuple) (m : ArchiveMessage)
    (st : ExtractState) (step : MsgPart) : ExtractState :=
  if containsSub "html" step.contentType then
    match pd m.dateHeader with
    | some t =>
        { st with messagesParsed :=
            st.messagesParsed ++ [⟨date_mdcy t, m.messageId, step.payload⟩] }
    | none => { st with messagesDefective := st.messagesDefective + 1 }
  else st

/-- The body of the `for key in archive.iterkeys()` loop (source lines
58–91) for one message: increment the total, skip the message if it has
defects (incrementing the defective counter), otherwise run the inner
walk loop over all its parts. -/
def processMessage (pd : String → Option DateTuple)
    (st : ExtractState) (m : ArchiveMessage) : ExtractState :=
  let st := { st with messagesTotal := st.messagesTotal + 1 }
  if m.defects = [] then
    m.body.walk.foldl (stepHtml pd m) st
  else
    { st with messagesDefective := st.messagesDefective + 1 }

/-- Result of the message-reading phase: the final counters and parsed
list, plus whether the archive-store handle was closed. -/
structure ReadPhaseResult where
  state : ExtractState
  archiveClosed : Bool
deriving DecidableEq, Repr

/-- The message-reading phase (source lines 58–101): fold the
per-message loop over the archive, then run lines 97–101.  Line 98
reads `archive.close` — it evaluates the bound method object without
calling it (no parentheses), so the store handle is never closed, and
the `except IOError` branch is unreachable. -/
def runReadPhase (pd : String → Option DateTuple)
    (archive : List ArchiveMessage) : ReadPhaseResult :=
  { state := archive.foldl (processMessage pd) initState
    archiveClosed := false }

/-- The parts of a message whose content type contains `"html"`, in
depth-first walk order. -/
def htmlParts (m : ArchiveMessage) : List MsgPart :=
  m.body.walk.filter (fun p => containsSub "html" p.contentType)

/-- Number of messages in the archive that are not skipped as defective
yet contain no HTML part (the "messages with no HTML part" of the
spec's counter identity). -/
def countNoHtml (archive : List ArchiveMessage) : Nat :=
  (archive.filter (fun m => m.defects.isEmpty && (htmlParts m).isEmpty)).length

/-- A well-formed digest message carrying two HTML alternative parts. -/
def twoHtmlMessage : ArchiveMessage :=
  { defects := []
    dateHeader := "Thu, 2 Jan 2020 00:00:00 +0000"
    messageId := "<id1@mail>"
    body := .part "multipart/alternative" ""
      [.part "text/html" "<p>one</p>" [], .part "text/html" "<p>two</p>" []] }

/-- Sanity check: a message with two HTML parts appends two parsed
entries while counting once in the total. -/
theorem eval_twoHtmlMessage :
    (runReadPhase parsedate_spec [twoHtmlMessage]).state =
      ⟨[⟨"01022020", "<id1@mail>", "<p>one</p>"⟩,
        ⟨"01022020", "<id1@mail>", "<p>two</p>"⟩], 1, 0⟩ := by decide

/-! ## The HTML tree and the article phase (source lines 108–135)

`BeautifulSoup(entry[2], "html.parser")` is the spec's tolerant HTML
parser, an external collaborator; the article phase below therefore
works on an already-parsed tree, and the whole-pipeline definition
takes the parser as an abstract `String → HtmlNode` parameter. -/

/-- A node of the parsed HTML tree: text, or an element with a tag
name, attributes and children. -/
inductive HtmlNode where
  | text : String → HtmlNode
  | elem : String → List (String × String) → List HtmlNode → HtmlNode

/-- Attribute lookup on an element's attribute list. -/
def attrValue (attrs : List (String × String)) (k : String) : Option String :=
  (attrs.find? (fun p => p.1 = k)).map (·.2)

mutual

/-- `soup.findAll("tr", {"itemtype": 'http://schema.org/Article'})`
(source line 110): every element of the tree, in document (depth-first)
order, whose tag is `tr` and whose `itemtype` attribute equals the
schema.org Article URI. -/
def findArticles : HtmlNode → List HtmlNode
  | .text _ => []
  | .elem tag attrs children =>
    let rest := findArticlesList children
    if tag = "tr" ∧ attrValue attrs "itemtype" = some "http://schema.org/Article" then
      .elem tag attrs children :: rest
    else rest

/-- `findArticles` over a list of sibling nodes. -/
def findArticlesList : List HtmlNode → List HtmlNode
  | [] => []
  | n :: ns => findArticles n ++ findArticlesList ns

end

mutual

/-- The effect of the loop at source lines 117–118
(`for bold_tag in article.find_all('b'): bold_tag.replace_with_children()`)
on one node below the article root: every element tagged `b` — at any
depth, nested ones included — is replaced by its (recursively
processed) children; other nodes are kept with processed children. -/
def unwrapBold : HtmlNode → List HtmlNode
  | .text s => [.text s]
  | .elem tag attrs children =>
    let cs := unwrapBoldList children
    if tag = "b" then cs else [.elem tag attrs cs]

/-- `unwrapBold` over a list of sibling nodes. -/
def unwrapBoldList : List HtmlNode → List HtmlNode
  | [] => []
  | n :: ns => unwrapBold n ++ unwrapBoldList ns

end

/-- The markup normalisation of one located article element:
`find_all('b')` searches the article's descendants only, so the root
element itself is kept and every `b` element strictly below it is
unwrapped. -/
def normalizeArticle : HtmlNode → HtmlNode
  | .text s => .text s
  | .elem tag attrs children => .elem tag attrs (unwrapBoldList children)

/-- Serialisation of an attribute list as ` k="v"` pairs. -/
def serializeAttrs : List (String × String) → List Char
  | [] => []
  | (k, v) :: rest => ' ' :: k.toList ++ '=' :: '"' :: v.toList ++ '"' :: serializeAttrs rest

mutual

/-- Serialisation of a node back to markup, modelling `str(article)`
(source line 119). -/
def serializeNode : HtmlNode → List Char
  | .text s => s.toList
  | .elem tag attrs children =>
    '<' :: tag.toList ++ serializeAttrs attrs ++ '>' :: serializeList children
      ++ '<' :: '/' :: tag.toList ++ ['>']

/-- Serialisation of sibling nodes. -/
def serializeList : List HtmlNode → List Char
  | [] => []
  | n :: ns => serializeNode n ++ serializeList ns

end

mutual

/-- The text content of a node (all text, markup dropped). -/
def textContent : HtmlNode → List Char
  | .text s => s.toList
  | .elem _ _ children => textContentList children

/-- Text content of sibling nodes. -/
def textContentList : List HtmlNode → List Char
  | [] => []
  | n :: ns => textContent n ++ textContentList ns

end

mutual

/-- Whether the tree contains an element with the given tag. -/
def hasTag (t : String) : HtmlNode → Bool
  | .text _ => false
  | .elem tag _ children => tag = t || hasTagList t children

/-- `hasTag` over sibling nodes. -/
def hasTagList (t : String) : List HtmlNode → Bool
  | [] => false
  | n :: ns => hasTag t n || hasTagList t ns

end

/-! ## The microdata extractor's output and the per-article loop
(source lines 108–135)

`extruct.MicrodataExtractor().extract(article_text)` is the spec's
external Microdata Extractor collaborator; it is taken as an abstract
`String → List MDItem` parameter whose output shape follows the spec's
§4.5 contract: a sequence of items, each with a `type` and a
`properties` mapping whose values are strings or nested items. -/

mutual

/-- A value in an extracted item's `properties` mapping: a string, or a
nested item (such as the `publisher` sub-object). -/
inductive MDValue where
  | str : String → MDValue
  | item : MDItem → MDValue

/-- One extracted structured-data item: its `type` and its `properties`
mapping. -/
inductive MDItem where
  | mk : String → List (String × MDValue) → MDItem

end

/-- The `properties` mapping of an item. -/
def MDItem.properties : MDItem → List (String × MDValue)
  | .mk _ ps => ps

/-- Python `dict[key]` on a `properties` mapping: the value, or an
uncaught `KeyError` when the key is absent. -/
def getProp (ps : List (String × MDValue)) (k : String) : Except String MDValue :=
  match ps.find? (fun p => p.1 = k) with
  | some p => .ok p.2
  | none => .error ("KeyError: " ++ k)

/-- A property value used as a string (the `url` handed to `urlparse`);
a nested item there is an uncaught `TypeError`. -/
def asStr : MDValue → Except String String
  | .str s => .ok s
  | .item _ => .error "TypeError: expected str"

/-- A property value used as a nested item (`['publisher']['properties']`);
a plain string there is an uncaught `TypeError`. -/
def asItem : MDValue → Except String MDItem
  | .item i => .ok i
  | .str _ => .error "TypeError: expected dict"

/-- One output row of `article_list` (source line 135): the owning
message's date and id, the resolved url, and the extracted title,
publisher and teaser values. -/
structure Row where
  date : String
  messageId : String
  url : String
  title : MDValue
  publisher : MDValue
  teaser : MDValue

/-- The body of the `for article in articles` loop (source lines
111–135) for one located article block: normalise the markup (lines
117–118), serialise it (line 119), run the microdata extractor (line
122), then read `article_data[0]` (an uncaught `IndexError` when the
extractor yields no item) and its `url`, `name`, `description` and
`publisher → properties → name` properties (uncaught `KeyError` /
`TypeError` when missing), resolving the redirect URL in between
(lines 125–127); on success append the row (line 135). -/
def processArticle (extract : String → List MDItem) (date messageId : String)
    (article : HtmlNode) : Except String Row := do
  let articleText := String.mk (serializeNode (normalizeArticle article))
  match extract articleText with
  | [] => .error "IndexError: list index out of range"
  | d0 :: _ => do
    let googleUrlV ← getProp d0.properties "url"
    let googleUrl ← asStr googleUrlV
    let url := resolveUrl googleUrl
    let title ← getProp d0.properties "name"
    let teaser ← getProp d0.properties "description"
    let publisherV ← getProp d0.properties "publisher"
    let publisherItem ← asItem publisherV
    let publisher ← getProp publisherItem.properties "name"
    return ⟨date, messageId, url, title, publisher, teaser⟩

/-- The articles of one parsed entry, processed in order; the first
uncaught error aborts the whole computation. -/
def processArticleSeq (extract : String → List MDItem) (date messageId : String) :
    List HtmlNode → Except String (List Row)
  | [] => .ok []
  | a :: rest => do
    let r ← processArticle extract date messageId a
    let rs ← processArticleSeq extract date messageId rest
    return r :: rs

/-- One iteration of the `for entry in messages_parsed` loop (source
lines 108–135): locate the article blocks in the entry's HTML tree and
process each. -/
def processEntry (extract : String → List MDItem) (date messageId : String)
    (tree : HtmlNode) : Except String (List Row) :=
  processArticleSeq extract date messageId (findArticles tree)

/-- The whole article-extraction phase over the parsed entries (the
entry's HTML string already put through the external tolerant HTML
parser): the rows of all entries in order, or the first uncaught
error, which aborts everything (no output is produced at all). -/
def buildArticleList (extract : String → List MDItem) :
    List (String × String × HtmlNode) → Except String (List Row)
  | [] => .ok []
  | (date, messageId, tree) :: rest => do
    let rows ← processEntry extract date messageId tree
    let more ← buildArticleList extract rest
    return rows ++ more

/-! ## The whole run (source lines 54–147) -/

/-- How the run ends: normal completion, or an uncaught exception. -/
inductive RunOutcome where
  | completed : RunOutcome
  | crashed : String → RunOutcome
deriving DecidableEq, Repr

/-- The parsed entries handed from the reading phase to the article
phase, with the external HTML parser `parse` applied to each entry's
HTML string. -/
def pipelineEntries (parse : String → HtmlNode) (pd : String → Option DateTuple)
    (archive : List ArchiveMessage) : List (String × String × HtmlNode) :=
  (runReadPhase pd archive).state.messagesParsed.map
    (fun e => (e.date, e.messageId, parse e.html))

/-- The whole run after the reading phase: the article phase, then the
output stage (source lines 141–147).  An error in the article phase is
uncaught — the run crashes and nothing is written.  The output stage is
wrapped in `try … except IOError` (lines 141, 146–147): when the write
fails (`outputFails`), the error is caught and reported, the run still
completes, and nothing is written; otherwise the full row list is
written at once. -/
def runPipeline (parse : String → HtmlNode) (extract : String → List MDItem)
    (pd : String → Option DateTuple) (outputFails : Bool)
    (archive : List ArchiveMessage) : RunOutcome × Option (List Row) :=
  match buildArticleList extract (pipelineEntries parse pd archive) with
  | .error e => (.crashed e, none)
  | .ok rows => (.completed, if outputFails then none else some rows)

/-! ## Concrete fixtures used by witnesses and counterexamples -/

/-- An archive message flagged with a structural defect. -/
def defectMessage : ArchiveMessage :=
  { defects := ["StartBoundaryNotFoundDefect"]
    dateHeader := "Thu, 2 Jan 2020 00:00:00 +0000"
    messageId := "<id1@mail>"
    body := .part "text/html" "x" [] }

/-- An archive message whose `date` header does not parse. -/
def badDateMessage : ArchiveMessage :=
  { defects := []
    dateHeader := "not a date"
    messageId := "<id2@mail>"
    body := .part "text/html" "y" [] }

/-- A well-formed archive message with a single HTML part. -/
def wfMessage : ArchiveMessage :=
  { defects := []
    dateHeader := "Thu, 2 Jan 2020 00:00:00 +0000"
    messageId := "<id3@mail>"
    body := .part "multipart/alternative" ""
      [.part "text/plain" "plain" [],
       .part "text/html" "<html><body></body></html>" []] }

/-- A located article block containing a `<b>` tag inside a hyphenated
compound. -/
def exArticle : HtmlNode :=
  .elem "tr" [("itemtype", "http://schema.org/Article")]
    [.elem "td" [] [.elem "b" [] [.text "AI"], .text "-powered tools"]]

/-- A document tree containing one article block. -/
def exTree : HtmlNode :=
  .elem "html" [] [.elem "table" [] [exArticle]]

/-- A microdata-extractor stand-in returning one well-populated
Article item. -/
def exExtract : String → List MDItem := fun _ =>
  [.mk "http://schema.org/Article"
     [("url", .str "https://www.google.com/url?url=https%3A%2F%2Fnews.example%2Fa&ct=ga"),
      ("name", .str "Sample title"),
      ("description", .str "Sample teaser"),
      ("publisher", .item (.mk "http://schema.org/Organization"
         [("name", .str "News Example")]))]]

/-- A microdata-extractor stand-in whose raw `url` value carries no
`url` query parameter. -/
def exExtractNoUrlParam : String → List MDItem := fun _ =>
  [.mk "http://schema.org/Article"
     [("url", .str "https://www.google.com/url?ct=ga"),
      ("name", .str "Sample title"),
      ("description", .str "Sample teaser"),
      ("publisher", .item (.mk "http://schema.org/Organization"
         [("name", .str "News Example")]))]]

/-- The external tolerant HTML parser, fixed to the sample tree. -/
def exParse : String → HtmlNode := fun _ => exTree

/-- Sanity check: one article block yields one fully-populated row. -/
theorem eval_processArticle :
    processArticle exExtract "01022020" "<id3@mail>" exArticle =
      .ok ⟨"01022020", "<id3@mail>", "https://news.example/a",
           .str "Sample title", .str "News Example", .str "Sample teaser"⟩ := rfl

/-- Sanity check: the whole pipeline on the sample archive. -/
theorem eval_runPipeline :
    runPipeline exParse exExtract parsedate_spec false [wfMessage] =
      (.completed,
       some [⟨"01022020", "<id3@mail>", "https://news.example/a",
              .str "Sample title", .str "News Example", .str "Sample teaser"⟩]) := rfl

/-- Sanity check: an extractor returning no item crashes the run with
an uncaught `IndexError`. -/
theorem eval_runPipeline_crash :
    runPipeline exParse (fun _ => []) parsedate_spec false [wfMessage] =
      (.crashed "IndexError: list index out of range", none) := rfl

/-! ## Lemmas about the body-extraction loop -/

theorem stepHtml_not_html (pd : String → Option DateTuple) (m : ArchiveMessage)
    (st : ExtractState) (step : MsgPart)
    (h : ¬ containsSub "html" step.contentType = true) :
    stepHtml pd m st step = st := by
  simp [stepHtml, h]

theorem foldl_stepHtml_filter (pd : String → Option DateTuple) (m : ArchiveMessage) :
    ∀ (l : List MsgPart) (st : ExtractState),
      l.foldl (stepHtml pd m) st =
        (l.filter (fun p => containsSub "html" p.contentType)).foldl (stepHtml pd m) st
  | [], _ => rfl
  | p :: ps, st => by
    by_cases h : containsSub "html" p.contentType = true
    · simp only [List.foldl_cons, List.filter_cons, h, if_pos]
      exact foldl_stepHtml_filter pd m ps (stepHtml pd m st p)
    · simp only [List.foldl_cons, List.filter_cons, h, Bool.false_eq_true, if_false,
        stepHtml_not_html pd m st p h]
      exact foldl_stepHtml_filter pd m ps st

theorem foldl_stepHtml_some (pd : String → Option DateTuple) (m : ArchiveMessage)
    (t : DateTuple) (hpd : pd m.dateHeader = some t) :
    ∀ (l : List MsgPart) (st : ExtractState),
      (∀ p ∈ l, containsSub "html" p.contentType = true) →
      l.foldl (stepHtml pd m) st =
        { st with messagesParsed :=
            st.messagesParsed ++ l.map (fun p => ⟨date_mdcy t, m.messageId, p.payload⟩) }
  | [], st, _ => by simp
  | p :: ps, st, h => by
    have hp : containsSub "html" p.contentType = true := h p (by simp)
    rw [List.foldl_cons,
      show stepHtml pd m st p =
          { st with messagesParsed :=
              st.messagesParsed ++ [⟨date_mdcy t, m.messageId, p.payload⟩] } from by
        simp [stepHtml, hp, hpd],
      foldl_stepHtml_some pd m t hpd ps _ (fun q hq => h q (by simp [hq]))]
    simp

theorem foldl_stepHtml_none (pd : String → Option DateTuple) (m : ArchiveMessage)
    (hpd : pd m.dateHeader = none) :
    ∀ (l : List MsgPart) (st : ExtractState),
      (∀ p ∈ l, containsSub "html" p.contentType = true) →
      l.foldl (stepHtml pd m) st =
        { st with messagesDefective := st.messagesDefective + l.length }
  | [], st, _ => by simp
  | p :: ps, st, h => by
    have hp : containsSub "html" p.contentType = true := h p (by simp)
    rw [List.foldl_cons,
      show stepHtml pd m st p =
          { st with messagesDefective := st.messagesDefective + 1 } from by
        simp [stepHtml, hp, hpd],
      foldl_stepHtml_none pd m hpd ps _ (fun q hq => h q (by simp [hq]))]
    simp [Nat.add_assoc, Nat.add_comm 1 ps.length]

theorem processMessage_defective (pd : String → Option DateTuple)
    (st : ExtractState) (m : ArchiveMessage) (h : ¬ m.defects = []) :
    processMessage pd st m =
      { st with messagesTotal := st.messagesTotal + 1
                messagesDefective := st.messagesDefective + 1 } := by
  simp [processMessage, h]

theorem processMessage_clean (pd : String → Option DateTuple)
    (st : ExtractState) (m : ArchiveMessage) (h : m.defects = []) :
    processMessage pd st m =
      (htmlParts m).foldl (stepHtml pd m)
        { st with messagesTotal := st.messagesTotal + 1 } := by
  rw [processMessage, if_pos h, htmlParts, ← foldl_stepHtml_filter]

theorem htmlParts_html (m : ArchiveMessage) :
    ∀ p ∈ htmlParts m, containsSub "html" p.contentType = true := by
  intro p hp
  exact (List.mem_filter.mp hp).2

theorem processMessage_clean_some (pd : String → Option DateTuple)
    (st : ExtractState) (m : ArchiveMessage) (t : DateTuple)
    (hdef : m.defects = []) (hpd : pd m.dateHeader = some t) :
    processMessage pd st m =
      { st with messagesTotal := st.messagesTotal + 1
                messagesParsed := st.messagesParsed ++
                  (htmlParts m).map (fun p => ⟨date_mdcy t, m.messageId, p.payload⟩) } := by
  rw [processMessage_clean pd st m hdef,
    foldl_stepHtml_some pd m t hpd _ _ (htmlParts_html m)]

theorem processMessage_clean_none (pd : String → Option DateTuple)
    (st : ExtractState) (m : ArchiveMessage)
    (hdef : m.defects = []) (hpd : pd m.dateHeader = none) :
    processMessage pd st m =
      { st with messagesTotal := st.messagesTotal + 1
                messagesDefective := st.messagesDefective + (htmlParts m).length } := by
  rw [processMessage_clean pd st m hdef,
    foldl_stepHtml_none pd m hpd _ _ (htmlParts_html m)]

theorem countNoHtml_cons (m : ArchiveMessage) (rest : List ArchiveMessage) :
    countNoHtml (m :: rest) =
      (if m.defects.isEmpty && (htmlParts m).isEmpty then 1 else 0) + countNoHtml rest := by
  simp only [countNoHtml, List.filter_cons]
  split
  · simp [Nat.add_comm]
  · simp

theorem stepHtml_total (pd : String → Option DateTuple) (m : ArchiveMessage)
    (st : ExtractState) (p : MsgPart) :
    (stepHtml pd m st p).messagesTotal = st.messagesTotal := by
  unfold stepHtml
  split
  · split <;> rfl
  · rfl

theorem foldl_stepHtml_total (pd : String → Option DateTuple) (m : ArchiveMessage) :
    ∀ (l : List MsgPart) (st : ExtractState),
      (l.foldl (stepHtml pd m) st).messagesTotal = st.messagesTotal
  | [], _ => rfl
  | p :: ps, st => by
    rw [List.foldl_cons, foldl_stepHtml_total pd m ps, stepHtml_total]

theorem processMessage_total (pd : String → Option DateTuple)
    (st : ExtractState) (m : ArchiveMessage) :
    (processMessage pd st m).messagesTotal = st.messagesTotal + 1 := by
  unfold processMessage
  split
  · rw [foldl_stepHtml_total]
  · rfl

theorem foldl_processMessage_total (pd : String → Option DateTuple) :
    ∀ (archive : List ArchiveMessage) (st : ExtractState),
      (archive.foldl (processMessage pd) st).messagesTotal
        = st.messagesTotal + archive.length
  | [], _ => rfl
  | m :: rest, st => by
    rw [List.foldl_cons, foldl_processMessage_total pd rest, processMessage_total]
    simp [Nat.add_assoc, Nat.add_comm 1 rest.length]

theorem defects_isEmpty_false (m : ArchiveMessage) (h : ¬ m.defects = []) :
    m.defects.isEmpty = false := by
  cases hd : m.defects with
  | nil => exact absurd hd h
  | cons a l => simp

theorem processMessage_step_defparsed (pd : String → Option DateTuple)
    (st : ExtractState) (m : ArchiveMessage) (hm : (htmlParts m).length ≤ 1) :
    (processMessage pd st m).messagesDefective
      + (processMessage pd st m).messagesParsed.length
      + (if m.defects.isEmpty && (htmlParts m).isEmpty then 1 else 0)
    = st.messagesDefective + st.messagesParsed.length + 1 := by
  by_cases hdef : m.defects = []
  · rcases hhtml : htmlParts m with _ | ⟨p, ps⟩
    · rcases hpd : pd m.dateHeader with _ | t
      · rw [processMessage_clean_none pd st m hdef hpd]
        simp [hdef, hhtml]
      · rw [processMessage_clean_some pd st m t hdef hpd]
        simp [hdef, hhtml]
    · have hps : ps = [] := by
        have h1 : ps.length + 1 ≤ 1 := by
          have := hm
          rw [hhtml] at this
          simpa using this
        exact List.length_eq_zero.mp (by omega)
      subst hps
      rcases hpd : pd m.dateHeader with _ | t
      · rw [processMessage_clean_none pd st m hdef hpd]
        simp only [hdef, hhtml]
        simp
        omega
      · rw [processMessage_clean_some pd st m t hdef hpd]
        simp [hdef, hhtml, Nat.add_assoc, Nat.add_comm 1]
  · rw [processMessage_defective pd st m hdef]
    simp only [defects_isEmpty_false m hdef, Bool.false_and, if_neg]
    simp
    omega

theorem foldl_processMessage_defparsed (pd : String → Option DateTuple) :
    ∀ (archive : List ArchiveMessage) (st : ExtractState),
      (∀ m ∈ archive, (htmlParts m).length ≤ 1) →
      (archive.foldl (processMessage pd) st).messagesDefective
        + (archive.foldl (processMessage pd) st).messagesParsed.length
        + countNoHtml archive
      = st.messagesDefective + st.messagesParsed.length + archive.length
  | [], st, _ => by simp [countNoHtml]
  | m :: rest, st, h => by
    have hstep := processMessage_step_defparsed pd st m (h m (by simp))
    have hih := foldl_processMessage_defparsed pd rest (processMessage pd st m)
      (fun m' hm' => h m' (by simp [hm']))
    rw [List.foldl_cons, countNoHtml_cons]
    simp only [List.length_cons]
    omega

/-! ## Claims C1 and C2 -/

/-- Claim C1 (amended): for every archive in which each message has at
most one part whose content type contains `"html"`, on completion of
the body-extraction phase the total-messages counter equals the
defective/skipped counter, plus the number of non-skipped messages
containing no HTML part, plus the number of successfully parsed
messages (the length of `messages_parsed`).  (The claim as literally
stated, for *every* archive, is refuted by `claim_c1_cex`: a message
with two HTML parts appends two parsed entries while counting once in
the total.) -/
theorem claim_c1_counter_invariant (pd : String → Option DateTuple)
    (archive : List ArchiveMessage)
    (h : ∀ m ∈ archive, (htmlParts m).length ≤ 1) :
    (runReadPhase pd archive).state.messagesTotal
      = (runReadPhase pd archive).state.messagesDefective
        + countNoHtml archive
        + (runReadPhase pd archive).state.messagesParsed.length := by
  have ht := foldl_processMessage_total pd archive initState
  have hd := foldl_processMessage_defparsed pd archive initState h
  simp only [runReadPhase, initState, List.length_nil] at *
  omega

/-- Witness for C1: the spec's own three-message scenario — one
defect-flagged message, one with an unparseable date, one well-formed —
satisfies the hypothesis and the counter identity. -/
theorem claim_c1_witness :
    (∀ m ∈ [defectMessage, badDateMessage, wfMessage], (htmlParts m).length ≤ 1) ∧
    (runReadPhase parsedate_spec [defectMessage, badDateMessage, wfMessage]).state.messagesTotal
      = (runReadPhase parsedate_spec [defectMessage, badDateMessage, wfMessage]).state.messagesDefective
        + countNoHtml [defectMessage, badDateMessage, wfMessage]
        + (runReadPhase parsedate_spec
            [defectMessage, badDateMessage, wfMessage]).state.messagesParsed.length :=
  ⟨by decide,
   claim_c1_counter_invariant parsedate_spec
     [defectMessage, badDateMessage, wfMessage] (by decide)⟩

/-- Counterexample to C1 as stated: an archive with a single
defect-free message carrying two HTML parts has `total = 1` but
`defective = 0`, no message without an HTML part, and two parsed
entries, so the counter identity fails. -/
theorem claim_c1_cex :
    ¬ ((runReadPhase parsedate_spec [twoHtmlMessage]).state.messagesTotal
        = (runReadPhase parsedate_spec [twoHtmlMessage]).state.messagesDefective
          + countNoHtml [twoHtmlMessage]
          + (runReadPhase parsedate_spec [twoHtmlMessage]).state.messagesParsed.length) := by
  decide

/-- Claim C2 (amended): for every archive message with zero defects,
the body extractor walks the part tree depth-first and processes
*every* part whose content type contains `"html"`, in walk order: when
the date header parses it appends one parsed entry per such part (hence
exactly one entry, for the first such part, when the message has
exactly one HTML part); a message with no HTML part contributes no
parsed entry but is still counted in the total.  (The claim as
literally stated — exactly one `ParsedMessage` per message — is refuted
by `claim_c2_cex`.) -/
theorem claim_c2_html_part_selection (pd : String → Option DateTuple)
    (st : ExtractState) (m : ArchiveMessage) (hdef : m.defects = []) :
    (processMessage pd st m).messagesTotal = st.messagesTotal + 1 ∧
    (∀ t, pd m.dateHeader = some t →
      (processMessage pd st m).messagesParsed
        = st.messagesParsed
          ++ (htmlParts m).map (fun p => ⟨date_mdcy t, m.messageId, p.payload⟩)) ∧
    (htmlParts m = [] →
      (processMessage pd st m).messagesParsed = st.messagesParsed) := by
  refine ⟨processMessage_total pd st m, ?_, ?_⟩
  · intro t hpd
    rw [processMessage_clean_some pd st m t hdef hpd]
  · intro hnone
    rcases hpd : pd m.dateHeader with _ | t
    · rw [processMessage_clean_none pd st m hdef hpd, hnone]
    · rw [processMessage_clean_some pd st m t hdef hpd, hnone]
      simp

/-- Witness for C2: on the well-formed single-HTML-part message the
extractor appends exactly the entry for its one HTML part. -/
theorem claim_c2_witness :
    (processMessage parsedate_spec initState wfMessage).messagesParsed
      = initState.messagesParsed
        ++ (htmlParts wfMessage).map
            (fun p => ⟨date_mdcy ⟨2020, 1, 2⟩, wfMessage.messageId, p.payload⟩) :=
  (claim_c2_html_part_selection parsedate_spec initState wfMessage rfl).2.1
    ⟨2020, 1, 2⟩ (by decide)

/-- Counterexample to C2 as stated: a defect-free message with two HTML
parts and a parseable date emits two parsed entries, not exactly one. -/
theorem claim_c2_cex :
    (runReadPhase parsedate_spec [twoHtmlMessage]).state.messagesParsed.length = 2 ∧
    ¬ (runReadPhase parsedate_spec [twoHtmlMessage]).state.messagesParsed.length = 1 := by
  decide

/-! ## Claim C3: the date format -/

theorem natToCharsAux_zero : ∀ f, natToCharsAux f 0 = [] := by
  intro f
  cases f <;> rfl

theorem natToCharsAux_length : ∀ f n : Nat, 0 < n → n ≤ f →
    (natToCharsAux f n).length = Nat.log 10 n + 1 := by
  intro f
  induction f with
  | zero => intro n h1 h2; omega
  | succ f ih =>
    intro n h1 h2
    rw [natToCharsAux, if_neg (by omega)]
    rcases Nat.lt_or_ge n 10 with h10 | h10
    · rw [Nat.div_eq_of_lt h10, natToCharsAux_zero]
      simp [Nat.log_eq_zero_iff.mpr (Or.inl h10)]
    · have hd1 : 0 < n / 10 := Nat.div_pos h10 (by omega)
      have hd2 : n / 10 ≤ f := by
        have := Nat.div_lt_self h1 (by omega : 1 < 10)
        omega
      rw [List.length_append, ih (n / 10) hd1 hd2]
      have hlog : Nat.log 10 (n / 10) = Nat.log 10 n - 1 := Nat.log_div_base 10 n
      have hpos : 0 < Nat.log 10 n := Nat.log_pos (by omega) h10
      simp only [hlog, List.length_cons, List.length_nil]
      omega

theorem natToChars_length (n : Nat) : (natToChars n).length = Nat.log 10 n + 1 := by
  unfold natToChars
  split
  · simp_all
  · exact natToCharsAux_length (n + 1) n (by omega) (by omega)

theorem digitChar_isDigit : ∀ m, m < 10 → (Nat.digitChar m).isDigit = true := by decide

theorem natToCharsAux_digits : ∀ f n : Nat, (natToCharsAux f n).all Char.isDigit = true := by
  intro f
  induction f with
  | zero => intro n; rfl
  | succ f ih =>
    intro n
    rw [natToCharsAux]
    split
    · rfl
    · rw [List.all_append]
      simp [ih (n / 10), digitChar_isDigit (n % 10) (Nat.mod_lt n (by omega))]

theorem natToChars_digits (n : Nat) : (natToChars n).all Char.isDigit = true := by
  unfold natToChars
  split
  · rfl
  · exact natToCharsAux_digits (n + 1) n

theorem zfill2_length (l : List Char) : (zfill2 l).length = max 2 l.length := by
  unfold zfill2
  split
  · simp only [List.length_append, List.length_replicate]
    omega
  · omega

theorem zfill2_digits (l : List Char) (h : l.all Char.isDigit = true) :
    (zfill2 l).all Char.isDigit = true := by
  unfold zfill2
  split
  · rw [List.all_append, h]
    have hrep : (List.replicate (2 - l.length) '0').all Char.isDigit = true := by
      simp only [List.all_eq_true]
      intro c hc
      rw [(List.eq_of_mem_replicate hc : c = '0')]
      decide
    rw [hrep]
    rfl
  · exact h

theorem parsedate_spec_bounds (s : String) (t : DateTuple)
    (h : parsedate_spec s = some t) :
    1 ≤ t.month ∧ t.month ≤ 12 ∧ 1 ≤ t.day ∧ t.day ≤ 31 ∧
      1000 ≤ t.year ∧ t.year ≤ 9999 := by
  simp only [parsedate_spec] at h
  repeat' split at h
  all_goals simp_all
  subst h
  simp only [DateTuple.month, DateTuple.day, DateTuple.year]
  omega

/-- Claim C3: for every message whose date header parses, the formatted
date string is exactly 8 characters, all decimal digits, and is the
2-character zero-padded month, the 2-character zero-padded day and the
4-digit year concatenated with no separator. -/
theorem claim_c3_date_format (s : String) (t : DateTuple)
    (h : parsedate_spec s = some t) :
    (date_mdcy t).length = 8 ∧
    (date_mdcy t).toList.all Char.isDigit = true ∧
    (date_mdcy t).toList
      = zfill2 (natToChars t.month) ++ zfill2 (natToChars t.day) ++ natToChars t.year ∧
    (zfill2 (natToChars t.month)).length = 2 ∧
    (zfill2 (natToChars t.day)).length = 2 ∧
    (natToChars t.year).length = 4 := by
  obtain ⟨h1, h2, h3, h4, h5, h6⟩ := parsedate_spec_bounds s t h
  have hyear : (natToChars t.year).length = 4 := by
    rw [natToChars_length,
      Nat.log_eq_of_pow_le_of_lt_pow
        (by norm_num; omega : 10 ^ 3 ≤ t.year)
        (by norm_num; omega : t.year < 10 ^ (3 + 1))]
  have hmonth : (natToChars t.month).length ≤ 2 := by
    rw [natToChars_length]
    have := Nat.log_lt_of_lt_pow (by omega : t.month ≠ 0)
      (by norm_num; omega : t.month < 10 ^ 2)
    omega
  have hday : (natToChars t.day).length ≤ 2 := by
    rw [natToChars_length]
    have := Nat.log_lt_of_lt_pow (by omega : t.day ≠ 0)
      (by norm_num; omega : t.day < 10 ^ 2)
    omega
  have hzm : (zfill2 (natToChars t.month)).length = 2 := by
    rw [zfill2_length]; omega
  have hzd : (zfill2 (natToChars t.day)).length = 2 := by
    rw [zfill2_length]; omega
  have hzy : zfill2 (natToChars t.year) = natToChars t.year := by
    rw [zfill2, if_neg (by omega)]
  have hlist : (date_mdcy t).toList = date_mdcyL t := rfl
  have hlen : (date_mdcy t).length = (date_mdcyL t).length := rfl
  refine ⟨?_, ?_, ?_, hzm, hzd, hyear⟩
  · rw [hlen, date_mdcyL, List.length_append, List.length_append, hzm, hzd, hzy, hyear]
  · rw [hlist, date_mdcyL, List.all_append, List.all_append,
      zfill2_digits _ (natToChars_digits t.month),
      zfill2_digits _ (natToChars_digits t.day),
      zfill2_digits _ (natToChars_digits t.year)]
    rfl
  · rw [hlist, date_mdcyL, hzy]

/-- Witness for C3: the header `Tue, 3 Mar 2020 10:11:12 +0000` parses
to month 3, day 3, year 2020, and the formatted string `03032020`
satisfies every conjunct (day 3 is padded to `03`). -/
theorem claim_c3_witness :
    (date_mdcy ⟨2020, 3, 3⟩).length = 8 ∧
    (date_mdcy ⟨2020, 3, 3⟩).toList.all Char.isDigit = true ∧
    (date_mdcy ⟨2020, 3, 3⟩).toList
      = zfill2 (natToChars 3) ++ zfill2 (natToChars 3) ++ natToChars 2020 ∧
    (zfill2 (natToChars 3)).length = 2 ∧
    (zfill2 (natToChars 3)).length = 2 ∧
    (natToChars 2020).length = 4 :=
  claim_c3_date_format "Tue, 3 Mar 2020 10:11:12 +0000" ⟨2020, 3, 3⟩ (by decide)

/-! ## Claims C4 and C10: URL resolution -/

theorem splitOnChar_not_mem (c : Char) : ∀ l : List Char, c ∉ l → splitOnChar c l = [l]
  | [], _ => rfl
  | x :: xs, h => by
    have hx : ¬ x = c := by
      intro e
      exact h (by simp [e])
    have hxs : c ∉ xs := by
      intro e
      exact h (List.mem_cons_of_mem x e)
    simp only [splitOnChar, splitOnChar_not_mem c xs hxs, if_neg hx]

theorem splitOnChar_append (c : Char) : ∀ (l₁ l₂ : List Char), c ∉ l₁ →
    splitOnChar c (l₁ ++ c :: l₂) = l₁ :: splitOnChar c l₂
  | [], l₂, _ => by simp [splitOnChar]
  | x :: xs, l₂, h => by
    have hx : ¬ x = c := by
      intro e
      exact h (by simp [e])
    have hxs : c ∉ xs := by
      intro e
      exact h (List.mem_cons_of_mem x e)
    simp only [List.cons_append, splitOnChar, List.append_eq,
      splitOnChar_append c xs l₂ hxs, if_neg hx]

/-- The characters that must not occur inside a query-string token for
it to pass through URL splitting untouched. -/
def qtokenOk (l : List Char) : Prop :=
  '&' ∉ l ∧ '=' ∉ l ∧ '#' ∉ l ∧ '?' ∉ l

instance (l : List Char) : Decidable (qtokenOk l) := by
  unfold qtokenOk
  infer_instance

theorem unquotePlus_url : unquotePlus "url".toList = 'u' :: 'r' :: 'l' :: [] := by decide

theorem parseFieldL_url (v : List Char) (hv : '=' ∉ v) (hne : v ≠ []) :
    parseFieldL ("url=".toList ++ v) = some ('u' :: 'r' :: 'l' :: [], unquotePlus v) := by
  rw [show "url=".toList ++ v = "url".toList ++ '=' :: v from rfl]
  rw [parseFieldL, splitOnChar_append '=' "url".toList v (by decide),
    splitOnChar_not_mem '=' v hv]
  simp only [joinWith]
  rw [if_neg hne, unquotePlus_url]

theorem resolveUrlL_single (v : List Char) (hv : qtokenOk v) (hne : v ≠ []) :
    resolveUrlL ("https://redirect.example/?url=".toList ++ v) = unquotePlus v := by
  obtain ⟨ha, he, hh, hq⟩ := hv
  have hhash : '#' ∉ ("https://redirect.example/?url=".toList ++ v) := by
    simp only [List.mem_append]
    rintro (hm | hm)
    · exact absurd hm (by decide)
    · exact hh hm
  have hfull : "https://redirect.example/?url=".toList ++ v
      = "https://redirect.example/".toList ++ '?' :: ("url=".toList ++ v) := by
    rw [show ("https://redirect.example/?url=".toList : List Char)
        = "https://redirect.example/".toList ++ '?' :: "url=".toList from rfl]
    simp [List.append_assoc]
  have hqm : '?' ∉ "url=".toList ++ v := by
    simp only [List.mem_append]
    rintro (hm | hm)
    · exact absurd hm (by decide)
    · exact hq hm
  have hquery : getQueryL ("https://redirect.example/?url=".toList ++ v)
      = "url=".toList ++ v := by
    rw [getQueryL, splitOnChar_not_mem '#' _ hhash]
    simp only [List.headD_cons]
    rw [hfull, splitOnChar_append '?' _ _ (by decide), splitOnChar_not_mem '?' _ hqm]
    simp only [joinWith]
  have hamp : '&' ∉ "url=".toList ++ v := by
    simp only [List.mem_append]
    rintro (hm | hm)
    · exact absurd hm (by decide)
    · exact ha hm
  rw [resolveUrlL, parseQslL, hquery, splitOnChar_not_mem '&' _ hamp]
  rw [List.filterMap_cons, List.filterMap_nil, parseFieldL_url v he hne]
  simp [List.filter_cons]

/-- Claim C4: the URL resolver returns the URL-decoded value of the
`url` query parameter (shown on the spec's example, which yields
exactly `https://news.example/a`, and for every metacharacter-free
parameter value); when the query string has no `url` parameter it
returns the empty string rather than raising, and the article row is
still emitted, with a blank URL field. -/
theorem claim_c4_url_resolver :
    resolveUrl "https://redirect.example/?url=https%3A%2F%2Fnews.example%2Fa"
      = "https://news.example/a" ∧
    (∀ v : List Char, qtokenOk v → v ≠ [] →
      resolveUrlL ("https://redirect.example/?url=".toList ++ v) = unquotePlus v) ∧
    (∀ g : String,
      (∀ p ∈ parseQslL (getQueryL g.toList), ¬ p.1 = 'u' :: 'r' :: 'l' :: []) →
      resolveUrl g = "") ∧
    processArticle exExtractNoUrlParam "01022020" "<id3@mail>" exArticle
      = .ok ⟨"01022020", "<id3@mail>", "",
             .str "Sample title", .str "News Example", .str "Sample teaser"⟩ := by
  refine ⟨by decide, resolveUrlL_single, ?_, rfl⟩
  intro g hg
  have hfil : (parseQslL (getQueryL g.toList)).filter
      (fun p => p.1 = 'u' :: 'r' :: 'l' :: []) = [] := by
    rw [List.filter_eq_nil_iff]
    intro p hp
    simpa using hg p hp
  rw [resolveUrl, resolveUrlL, hfil]

/-- Witness for C4: a URL whose query carries no `url` parameter
resolves to the empty string. -/
theorem claim_c4_witness : resolveUrl "https://redirect.example/?x=1&y=2" = "" :=
  claim_c4_url_resolver.2.2.1 "https://redirect.example/?x=1&y=2" (by decide)

/-- Claim C10: when the query string carries the `url` parameter more
than once, the resolver returns the first occurrence's decoded value;
the second value is ignored, whatever it is.  `v₁` and `v₂` range over
arbitrary non-empty parameter values free of the URL metacharacters
`&`, `=`, `#`, `?`. -/
theorem claim_c10_first_url_param (v₁ v₂ : List Char)
    (h₁ : qtokenOk v₁) (h₂ : qtokenOk v₂) (hne₁ : v₁ ≠ []) (hne₂ : v₂ ≠ []) :
    resolveUrlL ("https://redirect.example/?url=".toList ++ v₁
        ++ "&url=".toList ++ v₂)
      = unquotePlus v₁ := by
  obtain ⟨ha1, he1, hh1, hq1⟩ := h₁
  obtain ⟨ha2, he2, hh2, hq2⟩ := h₂
  have hhash : '#' ∉ ("https://redirect.example/?url=".toList ++ v₁
      ++ "&url=".toList ++ v₂) := by
    simp only [List.append_assoc, List.mem_append]
    rintro (hm | hm | hm | hm)
    · exact absurd hm (by decide)
    · exact hh1 hm
    · exact absurd hm (by decide)
    · exact hh2 hm
  have hfull : "https://redirect.example/?url=".toList ++ v₁ ++ "&url=".toList ++ v₂
      = "https://redirect.example/".toList
        ++ '?' :: ("url=".toList ++ (v₁ ++ '&' :: ("url=".toList ++ v₂))) := by
    rw [show ("https://redirect.example/?url=".toList : List Char)
        = "https://redirect.example/".toList ++ '?' :: "url=".toList from rfl,
      show ("&url=".toList : List Char) = '&' :: "url=".toList from rfl]
    simp [List.append_assoc]
  have hqm : '?' ∉ "url=".toList ++ (v₁ ++ '&' :: ("url=".toList ++ v₂)) := by
    simp only [List.mem_append, List.mem_cons]
    rintro (hm | hm | hm | hm | hm)
    · exact absurd hm (by decide)
    · exact hq1 hm
    · exact absurd hm (by decide)
    · exact absurd hm (by decide)
    · exact hq2 hm
  have hquery : getQueryL ("https://redirect.example/?url=".toList ++ v₁
      ++ "&url=".toList ++ v₂)
      = "url=".toList ++ (v₁ ++ '&' :: ("url=".toList ++ v₂)) := by
    rw [getQueryL, splitOnChar_not_mem '#' _ hhash]
    simp only [List.headD_cons]
    rw [hfull, splitOnChar_append '?' _ _ (by decide),
      splitOnChar_not_mem '?' _ hqm]
    simp only [joinWith]
  have hsplit : splitOnChar '&' ("url=".toList ++ (v₁ ++ '&' :: ("url=".toList ++ v₂)))
      = ["url=".toList ++ v₁, "url=".toList ++ v₂] := by
    rw [show "url=".toList ++ (v₁ ++ '&' :: ("url=".toList ++ v₂))
        = ("url=".toList ++ v₁) ++ '&' :: ("url=".toList ++ v₂) from by
      simp [List.append_assoc]]
    rw [splitOnChar_append '&' _ _ (by
      simp only [List.mem_append]
      rintro (hm | hm)
      · exact absurd hm (by decide)
      · exact ha1 hm)]
    rw [splitOnChar_not_mem '&' _ (by
      simp only [List.mem_append]
      rintro (hm | hm)
      · exact absurd hm (by decide)
      · exact ha2 hm)]
  rw [resolveUrlL, parseQslL, hquery, hsplit]
  rw [List.filterMap_cons, List.filterMap_cons, List.filterMap_nil,
    parseFieldL_url v₁ he1 hne₁, parseFieldL_url v₂ he2 hne₂]
  simp [List.filter_cons]

/-- Witness for C10: with two `url` parameters in the query, the first
value (percent-decoded) is returned and the second is ignored. -/
theorem claim_c10_witness :
    resolveUrlL ("https://redirect.example/?url=".toList
        ++ "https%3A%2F%2Fnews.example%2Fa".toList
        ++ "&url=".toList ++ "second".toList)
      = unquotePlus "https%3A%2F%2Fnews.example%2Fa".toList :=
  claim_c10_first_url_param
    "https%3A%2F%2Fnews.example%2Fa".toList "second".toList
    (by decide) (by decide) (by decide) (by decide)

/-! ## Claim C5: one row per located article block -/

theorem exceptBind_ok {α β : Type} (x : Except String α) (f : α → Except String β)
    (b : β) : (x >>= f) = .ok b ↔ ∃ a, x = .ok a ∧ f a = .ok b := by
  cases x <;> simp [bind, Except.bind]

theorem processArticle_fields (extract : String → List MDItem) (d mid : String)
    (a : HtmlNode) (r : Row) (h : processArticle extract d mid a = .ok r) :
    r.date = d ∧ r.messageId = mid := by
  obtain ⟨rd, rmid, rurl, rt, rp, rte⟩ := r
  rw [processArticle] at h
  dsimp only at h
  split at h
  · exact absurd h (by simp)
  · obtain ⟨uv, h1, h⟩ := (exceptBind_ok _ _ _).mp h
    obtain ⟨us, h2, h⟩ := (exceptBind_ok _ _ _).mp h
    obtain ⟨tv, h3, h⟩ := (exceptBind_ok _ _ _).mp h
    obtain ⟨dv, h4, h⟩ := (exceptBind_ok _ _ _).mp h
    obtain ⟨pv, h5, h⟩ := (exceptBind_ok _ _ _).mp h
    obtain ⟨pi, h6, h⟩ := (exceptBind_ok _ _ _).mp h
    obtain ⟨pn, h7, h⟩ := (exceptBind_ok _ _ _).mp h
    simp only [pure, Except.pure, Except.ok.injEq, Row.mk.injEq] at h
    exact ⟨h.1.symm, h.2.1.symm⟩

theorem processArticleSeq_ok (extract : String → List MDItem) (d mid : String) :
    ∀ l : List HtmlNode,
      (∀ a ∈ l, ∃ r, processArticle extract d mid a = .ok r) →
      ∃ rows, processArticleSeq extract d mid l = .ok rows ∧
        rows.length = l.length ∧
        ∀ r ∈ rows, r.date = d ∧ r.messageId = mid
  | [], _ => ⟨[], rfl, rfl, by simp⟩
  | a :: rest, h => by
    obtain ⟨r, hr⟩ := h a (by simp)
    obtain ⟨rows, hrows, hlen, hfields⟩ :=
      processArticleSeq_ok extract d mid rest (fun a' ha' => h a' (by simp [ha']))
    refine ⟨r :: rows, ?_, by simp [hlen], ?_⟩
    · rw [processArticleSeq, hr]
      simp only [bind, Except.bind, hrows, pure, Except.pure]
    · intro r' hr'
      rcases List.mem_cons.mp hr' with rfl | hmem
      · exact processArticle_fields extract d mid a r' hr
      · exact hfields r' hmem

/-- Claim C5: when no article block of a parsed message raises an
extraction defect, the article loop emits exactly one output row per
article block located in the message's HTML (a `tr` element with
`itemtype` exactly `http://schema.org/Article`), so the rows
contributed by the message number exactly the matched blocks, and every
row carries the owning message's date and message id unchanged. -/
theorem claim_c5_row_per_block (extract : String → List MDItem)
    (date messageId : String) (tree : HtmlNode)
    (h : ∀ a ∈ findArticles tree, ∃ r, processArticle extract date messageId a = .ok r) :
    ∃ rows, processEntry extract date messageId tree = .ok rows ∧
      rows.length = (findArticles tree).length ∧
      ∀ r ∈ rows, r.date = date ∧ r.messageId = messageId :=
  processArticleSeq_ok extract date messageId (findArticles tree) h

/-- Witness for C5: on the sample tree with one article block and the
well-populated extractor, exactly one row comes out, carrying the
message's date and id. -/
theorem claim_c5_witness :
    ∃ rows, processEntry exExtract "01022020" "<id3@mail>" exTree = .ok rows ∧
      rows.length = (findArticles exTree).length ∧
      ∀ r ∈ rows, r.date = "01022020" ∧ r.messageId = "<id3@mail>" :=
  claim_c5_row_per_block exExtract "01022020" "<id3@mail>" exTree (by
    intro a ha
    rw [show findArticles exTree = [exArticle] from rfl] at ha
    rw [List.mem_singleton.mp ha]
    exact ⟨⟨"01022020", "<id3@mail>", "https://news.example/a",
      .str "Sample title", .str "News Example", .str "Sample teaser"⟩, rfl⟩)

/-! ## Claim C6: uncaught extraction defects abort the run -/

/-- The publisher-name lookup chain of source line 131:
`article_data[0]['properties']['publisher']['properties']['name']`. -/
def publisherName (d0 : MDItem) : Except String MDValue := do
  let publisherV ← getProp d0.properties "publisher"
  let publisherItem ← asItem publisherV
  getProp publisherItem.properties "name"

/-- An extraction defect on an article block, in the claim's terms: the
microdata extractor yields no item at all, or the first item's nested
publisher name cannot be reached. -/
def extractionDefect (extract : String → List MDItem) (a : HtmlNode) : Prop :=
  extract (String.mk (serializeNode (normalizeArticle a))) = [] ∨
  ∃ d0 rest, extract (String.mk (serializeNode (normalizeArticle a))) = d0 :: rest ∧
    ∃ e, publisherName d0 = .error e

theorem processArticle_ok_publisher (extract : String → List MDItem)
    (d mid : String) (a : HtmlNode) (r : Row)
    (h : processArticle extract d mid a = .ok r) :
    extract (String.mk (serializeNode (normalizeArticle a))) ≠ [] ∧
    ∀ d0 rest, extract (String.mk (serializeNode (normalizeArticle a))) = d0 :: rest →
      ∃ v, publisherName d0 = .ok v := by
  constructor
  · intro hempty
    rw [processArticle] at h
    dsimp only at h
    rw [hempty] at h
    exact absurd h (by simp)
  · intro d0 rest hx
    rw [processArticle] at h
    dsimp only at h
    rw [hx] at h
    obtain ⟨uv, h1, h⟩ := (exceptBind_ok _ _ _).mp h
    obtain ⟨us, h2, h⟩ := (exceptBind_ok _ _ _).mp h
    obtain ⟨tv, h3, h⟩ := (exceptBind_ok _ _ _).mp h
    obtain ⟨dv, h4, h⟩ := (exceptBind_ok _ _ _).mp h
    obtain ⟨pv, h5, h⟩ := (exceptBind_ok _ _ _).mp h
    obtain ⟨pi, h6, h⟩ := (exceptBind_ok _ _ _).mp h
    obtain ⟨pn, h7, h⟩ := (exceptBind_ok _ _ _).mp h
    exact ⟨pn, by simp [publisherName, bind, Except.bind, h5, h6, h7]⟩

theorem extractionDefect_error (extract : String → List MDItem)
    (d mid : String) (a : HtmlNode) (hdef : extractionDefect extract a) :
    ∀ r, processArticle extract d mid a ≠ .ok r := by
  intro r hok
  obtain ⟨hne, hpub⟩ := processArticle_ok_publisher extract d mid a r hok
  rcases hdef with hempty | ⟨d0, rest, hx, e, herr⟩
  · exact hne hempty
  · obtain ⟨v, hv⟩ := hpub d0 rest hx
    exact absurd (hv.symm.trans herr) (by simp)

theorem processArticleSeq_error (extract : String → List MDItem) (d mid : String) :
    ∀ (l : List HtmlNode) (a : HtmlNode), a ∈ l →
      (∀ r, processArticle extract d mid a ≠ .ok r) →
      ∀ rows, processArticleSeq extract d mid l ≠ .ok rows
  | [], a, ha, _, rows => by simp at ha
  | b :: rest, a, ha, herr, rows => by
    intro hok
    rw [processArticleSeq] at hok
    obtain ⟨r, h1, hok⟩ := (exceptBind_ok _ _ _).mp hok
    obtain ⟨rs, h2, hok⟩ := (exceptBind_ok _ _ _).mp hok
    rcases List.mem_cons.mp ha with rfl | hmem
    · exact herr r h1
    · exact processArticleSeq_error extract d mid rest a hmem herr rs h2

theorem buildArticleList_error (extract : String → List MDItem) :
    ∀ (entries : List (String × String × HtmlNode)) (ent : String × String × HtmlNode),
      ent ∈ entries →
      (∀ rows, processEntry extract ent.1 ent.2.1 ent.2.2 ≠ .ok rows) →
      ∀ rows, buildArticleList extract entries ≠ .ok rows
  | [], ent, h, _, rows => by simp at h
  | (d, mid, tree) :: rest, ent, hent, herr, rows => by
    intro hok
    rw [buildArticleList] at hok
    obtain ⟨rs1, h1, hok⟩ := (exceptBind_ok _ _ _).mp hok
    obtain ⟨rs2, h2, hok⟩ := (exceptBind_ok _ _ _).mp hok
    rcases List.mem_cons.mp hent with rfl | hmem
    · exact herr rs1 h1
    · exact buildArticleList_error extract rest ent hmem herr rs2 h2

theorem exceptNotOk_error {α : Type} (x : Except String α)
    (h : ∀ r, x ≠ .ok r) : ∃ e, x = .error e := by
  cases x with
  | error e => exact ⟨e, rfl⟩
  | ok r => exact absurd rfl (h r)

/-- Claim C6: when structured-data extraction of some located article
block yields no item, or the first item's nested publisher name is
unreachable, the error is not caught: the whole article phase yields an
error, the run crashes, no row is produced for that block — or for any
other block or message (the output is `none`). -/
theorem claim_c6_defect_propagates (parse : String → HtmlNode)
    (extract : String → List MDItem) (pd : String → Option DateTuple)
    (outputFails : Bool) (archive : List ArchiveMessage)
    (h : ∃ ent ∈ pipelineEntries parse pd archive,
      ∃ a ∈ findArticles ent.2.2, extractionDefect extract a) :
    ∃ e, runPipeline parse extract pd outputFails archive = (.crashed e, none) := by
  obtain ⟨ent, hent, a, ha, hdef⟩ := h
  have hseq : ∀ rows, processEntry extract ent.1 ent.2.1 ent.2.2 ≠ .ok rows :=
    fun rows => processArticleSeq_error extract ent.1 ent.2.1 (findArticles ent.2.2)
      a ha (extractionDefect_error extract ent.1 ent.2.1 a hdef) rows
  obtain ⟨e, he⟩ := exceptNotOk_error _
    (buildArticleList_error extract (pipelineEntries parse pd archive) ent hent hseq)
  exact ⟨e, by rw [runPipeline, he]⟩

/-- Witness for C6: an extractor that yields no item on the sample
archive makes the whole run crash with no output. -/
theorem claim_c6_witness :
    ∃ e, runPipeline exParse (fun _ => []) parsedate_spec false [wfMessage]
      = (.crashed e, none) :=
  claim_c6_defect_propagates exParse (fun _ => []) parsedate_spec false [wfMessage]
    ⟨("01022020", "<id3@mail>", exTree),
     by
       rw [show pipelineEntries exParse parsedate_spec [wfMessage]
           = [("01022020", "<id3@mail>", exTree)] from rfl]
       exact List.mem_singleton.mpr rfl,
     exArticle,
     by
       rw [show findArticles exTree = [exArticle] from rfl]
       exact List.mem_singleton.mpr rfl,
     Or.inl rfl⟩

/-! ## Claim C7: the markup normaliser -/

theorem hasTagList_append (t : String) : ∀ l₁ l₂ : List HtmlNode,
    hasTagList t (l₁ ++ l₂) = (hasTagList t l₁ || hasTagList t l₂)
  | [], l₂ => by simp [hasTagList]
  | n :: ns, l₂ => by
    simp [hasTagList, hasTagList_append t ns l₂, Bool.or_assoc]

theorem textContentList_append : ∀ l₁ l₂ : List HtmlNode,
    textContentList (l₁ ++ l₂) = textContentList l₁ ++ textContentList l₂
  | [], l₂ => by simp [textContentList]
  | n :: ns, l₂ => by
    simp [textContentList, textContentList_append ns l₂]

mutual

theorem unwrapBold_no_b : ∀ n : HtmlNode, hasTagList "b" (unwrapBold n) = false
  | .text s => rfl
  | .elem tag attrs children => by
    rw [unwrapBold]
    split
    · exact unwrapBoldList_no_b children
    · rename_i hne
      simp [hasTagList, hasTag, hne, unwrapBoldList_no_b children]

theorem unwrapBoldList_no_b : ∀ ns : List HtmlNode,
    hasTagList "b" (unwrapBoldList ns) = false
  | [] => rfl
  | n :: ns => by
    rw [unwrapBoldList, hasTagList_append, unwrapBold_no_b n, unwrapBoldList_no_b ns]
    rfl

end

mutual

theorem textContent_unwrap : ∀ n : HtmlNode,
    textContentList (unwrapBold n) = textContent n
  | .text s => by simp [unwrapBold, textContentList, textContent]
  | .elem tag attrs children => by
    rw [unwrapBold]
    split
    · exact textContentList_unwrap children
    · simp [textContentList, textContent, textContentList_unwrap children]

theorem textContentList_unwrap : ∀ ns : List HtmlNode,
    textContentList (unwrapBoldList ns) = textContentList ns
  | [] => rfl
  | n :: ns => by
    rw [unwrapBoldList, textContentList_append, textContent_unwrap n,
      textContentList_unwrap ns, textContentList]

end

/-- An article block containing `<b>AI</b>-powered`. -/
def exBoldArticle : HtmlNode :=
  .elem "tr" [] [.elem "b" [] [.text "AI"], .text "-powered"]

/-- An article block containing `<em>AI</em>-powered`. -/
def exEmArticle : HtmlNode :=
  .elem "tr" [] [.elem "em" [] [.text "AI"], .text "-powered"]

/-- Claim C7 (amended): the markup normaliser unwraps every `b` element
below the article root — nested occurrences included — keeping the
children's content only and preserving the text content; consequently
`<b>AI</b>-powered` serialises post-normalisation to `AI-powered` with
no inserted space and no tag boundary inside the word.  (The claim as
literally stated — *every* bold/emphasis inline element — is refuted by
`claim_c7_cex`: `<em>` tags are left in place.) -/
theorem claim_c7_bold_unwrapping :
    (∀ ns : List HtmlNode, hasTagList "b" (unwrapBoldList ns) = false) ∧
    (∀ ns : List HtmlNode, textContentList (unwrapBoldList ns) = textContentList ns) ∧
    serializeNode (normalizeArticle exBoldArticle) = "<tr>AI-powered</tr>".toList ∧
    containsSubL "AI-powered".toList (serializeNode (normalizeArticle exBoldArticle))
      = true :=
  ⟨unwrapBoldList_no_b, textContentList_unwrap, by decide, by decide⟩

/-- Counterexample to C7 as stated: an emphasis element (`em`) inside
an article block survives normalisation untouched, so not every
bold/emphasis inline element is replaced by its children. -/
theorem claim_c7_cex :
    hasTag "em" (normalizeArticle exEmArticle) = true ∧
    serializeNode (normalizeArticle exEmArticle)
      = "<tr><em>AI</em>-powered</tr>".toList := by
  constructor <;> decide

/-! ## Claim C8: only the output stage tolerates failure -/

/-- Claim C8: a write failure on the output file is caught: the run
still completes (no uncaught exception) and the already-computed rows
are lost — nothing is written; without the failure the full row list is
written at once.  By contrast an error in the article-extraction stage
crashes the run whatever the output stage does: the record emitter is
the only pipeline stage that tolerates failure this way. -/
theorem claim_c8_output_failure_caught (parse : String → HtmlNode)
    (extract : String → List MDItem) (pd : String → Option DateTuple)
    (archive : List ArchiveMessage) :
    (∀ rows, buildArticleList extract (pipelineEntries parse pd archive) = .ok rows →
      runPipeline parse extract pd true archive = (.completed, none) ∧
      runPipeline parse extract pd false archive = (.completed, some rows)) ∧
    (∀ e, buildArticleList extract (pipelineEntries parse pd archive) = .error e →
      ∀ b, runPipeline parse extract pd b archive = (.crashed e, none)) := by
  constructor
  · intro rows h
    constructor <;> (rw [runPipeline, h]; rfl)
  · intro e h b
    rw [runPipeline, h]

/-- Witness for C8: on the sample archive with an injected output-write
failure the run completes and nothing is written. -/
theorem claim_c8_witness :
    runPipeline exParse exExtract parsedate_spec true [wfMessage]
      = (.completed, none) :=
  ((claim_c8_output_failure_caught exParse exExtract parsedate_spec [wfMessage]).1
    [⟨"01022020", "<id3@mail>", "https://news.example/a",
      .str "Sample title", .str "News Example", .str "Sample teaser"⟩] rfl).1

/-! ## Claim C9: the archive handle -/

/-- Claim C9 (the code diverges from it): after the message-reading
phase the archive-store handle has *not* been closed, for any archive
and any date parser — source line 98 reads `archive.close` without
calling it, even though line 99 then prints `Mailbox archive closed.`
and the spec says the handle is closed. -/
theorem claim_c9_handle_never_closed :
    (∀ (pd : String → Option DateTuple) (archive : List ArchiveMessage),
      (runReadPhase pd archive).archiveClosed = false) ∧
    (runReadPhase parsedate_spec [wfMessage]).archiveClosed = false :=
  ⟨fun _ _ => rfl, rfl⟩

end GoogleAlerts
